import Mathlib

/-!
Verification of the task-pool library specification.

The repository ships the Conan recipe `conanfile.py` as its build metadata;
the scheduling core (task queue, worker group, future/promise result channel,
cooperative cancellation) is described by the specification.  The core is
modelled here from that description, and the recipe is embedded directly from
`conanfile.py`.
-/

namespace TaskPool

/-- Modelled from the spec: the terminal outcome a ResultChannel can hold,
one of a value, a captured error, or a cancellation.  (The ResultChannel
implementation itself is not under src/.) -/
inductive Outcome (V E : Type) where
  | value (v : V)
  | error (e : E)
  | cancelled
  deriving DecidableEq, Repr

/-- Modelled from the spec: a ResultChannel holds one of
empty, value V, error E, cancelled; the three non-empty cases are terminal. -/
inductive ChanState (V E : Type) where
  | empty
  | done (o : Outcome V E)
  deriving DecidableEq, Repr

/-- Modelled from the spec: the internal-logic-defect error signalled when a
ResultChannel is completed twice. -/
inductive ChanError where
  | contractViolation
  deriving DecidableEq, Repr

/-- Modelled from the spec: the one-time transition out of `empty`.  A second
transition attempt fails with a contract violation and leaves the stored
outcome unchanged. -/
def trySet {V E : Type} (c : ChanState V E) (o : Outcome V E) :
    Except ChanError Unit × ChanState V E :=
  match c with
  | .empty => (Except.ok (), ChanState.done o)
  | .done o0 => (Except.error ChanError.contractViolation, ChanState.done o0)

/-- Modelled from the spec: producer-side `set_value`. -/
def set_value {V E : Type} (c : ChanState V E) (v : V) :
    Except ChanError Unit × ChanState V E :=
  trySet c (Outcome.value v)

/-- Modelled from the spec: producer-side `set_error`. -/
def set_error {V E : Type} (c : ChanState V E) (e : E) :
    Except ChanError Unit × ChanState V E :=
  trySet c (Outcome.error e)

/-- Modelled from the spec: producer-side `set_cancelled`. -/
def set_cancelled {V E : Type} (c : ChanState V E) :
    Except ChanError Unit × ChanState V E :=
  trySet c Outcome.cancelled

/-- Modelled from the spec: consumer-side `get`: blocks (here: `none`) until a
terminal state, then returns the value, re-raises the captured error, or
signals the cancellation outcome. -/
def futureGet {V E : Type} (c : ChanState V E) : Option (Outcome V E) :=
  match c with
  | .empty => none
  | .done o => some o

/-- Modelled from the spec: a cancellation token is a shared boolean flag,
monotonic once cancelled. -/
structure Token where
  cancelled : Bool
  deriving DecidableEq, Repr

/-- Modelled from the spec: `create` yields a fresh, not-cancelled token. -/
def Token.create : Token := ⟨false⟩

/-- Modelled from the spec: `request_cancel` sets the cancelled flag; it is
total (signals no error) and idempotent. -/
def request_cancel (t : Token) : Token := { t with cancelled := true }

/-- Modelled from the spec: `is_cancelled` reads the flag and never blocks. -/
def is_cancelled (t : Token) : Bool := t.cancelled

/-- Modelled from the spec: the TCB states
`Queued → Running → (Completed | Failed | Cancelled)`. -/
inductive TaskState where
  | queued
  | running
  | completed
  | failed
  | cancelled
  deriving DecidableEq, Repr

/-- Completed, Failed and Cancelled are the terminal TCB states. -/
def TaskState.isTerminal : TaskState → Bool
  | .completed => true
  | .failed => true
  | .cancelled => true
  | _ => false

/-- Modelled from the spec: the allowed TCB state transitions: a worker starts
a queued task, a started task completes, fails or observes cancellation, and a
still-queued task is short-circuited to cancelled without running. -/
inductive TaskStep : TaskState → TaskState → Prop where
  | start : TaskStep TaskState.queued TaskState.running
  | finishOk : TaskStep TaskState.running TaskState.completed
  | finishErr : TaskStep TaskState.running TaskState.failed
  | cancelRunning : TaskStep TaskState.running TaskState.cancelled
  | cancelQueued : TaskStep TaskState.queued TaskState.cancelled

/-- Modelled from the spec: a Task Control Block: the token it observes, the
closure (abstracted as the value or error the closure produces when invoked),
its state, its ResultChannel, and how many times its closure was invoked. -/
structure TCB (V E : Type) where
  tokenId : Nat
  body : Except E V
  state : TaskState
  chan : ChanState V E
  invoked : Nat

/-- A TCB whose state is terminal and whose channel holds an outcome. -/
def TCB.resolved {V E : Type} (t : TCB V E) : Prop :=
  t.state.isTerminal = true ∧ ∃ o, t.chan = ChanState.done o

/-- Resolve a TCB as cancelled: terminal state plus the cancelled outcome in
its channel, without touching the closure or its invocation count. -/
def cancelTCB {V E : Type} (t : TCB V E) : TCB V E :=
  { t with state := TaskState.cancelled, chan := (set_cancelled t.chan).2 }

/-- Modelled from the spec: the pool: the TCBs ever submitted (indexed by task
id), the cancellation-token flags (indexed by token id), the FIFO queue of
pending task ids, and the shutting-down flag. -/
structure Pool (V E : Type) where
  tasks : List (TCB V E)
  tokens : List Bool
  queue : List Nat
  shuttingDown : Bool

/-- A freshly constructed pool. -/
def Pool.init {V E : Type} : Pool V E := ⟨[], [], [], false⟩

/-- Modelled from the spec: the error surface of `submit`. -/
inductive PoolError where
  | submissionRejected
  deriving DecidableEq, Repr

/-- Whether the token with the given id is cancelled (an unknown id reads as
not cancelled). -/
def tokenCancelled {V E : Type} (p : Pool V E) (tid : Nat) : Bool :=
  (p.tokens[tid]?).getD false

/-- Modelled from the spec: `submit` is rejected, returning an error and no
Future and leaving the pool unchanged, when the pool is shutting down;
otherwise it wraps the closure in a queued TCB with an empty ResultChannel,
using the caller-supplied token or creating a fresh one, appends the TCB to
the FIFO queue, and returns the task id as the Future handle. -/
def submit {V E : Type} (p : Pool V E) (body : Except E V) (tok : Option Nat) :
    Except PoolError Nat × Pool V E :=
  if p.shuttingDown then (Except.error PoolError.submissionRejected, p)
  else
    match tok with
    | some tid =>
        (Except.ok p.tasks.length,
         { p with
            tasks := p.tasks ++ [⟨tid, body, TaskState.queued, ChanState.empty, 0⟩]
            queue := p.queue ++ [p.tasks.length] })
    | none =>
        (Except.ok p.tasks.length,
         { p with
            tasks := p.tasks ++
              [⟨p.tokens.length, body, TaskState.queued, ChanState.empty, 0⟩]
            tokens := p.tokens ++ [false]
            queue := p.queue ++ [p.tasks.length] })

/-- Modelled from the spec: `cancel` requests cancellation through the task's
token; it only sets the token flag — a queued task is short-circuited later,
when a worker pops it. -/
def cancelToken {V E : Type} (p : Pool V E) (tid : Nat) : Pool V E :=
  { p with tokens := p.tokens.set tid true }

/-- Modelled from the spec: what a worker does with a popped TCB: if its token
is cancelled, transition to Cancelled and complete the channel with the
cancelled outcome without invoking the closure; otherwise transition to
Running, invoke the closure, and transition to Completed or Failed, storing
the value or the captured error in the channel. -/
def runTCB {V E : Type} (tokCancelled : Bool) (t : TCB V E) : TCB V E :=
  if tokCancelled then
    cancelTCB t
  else
    let t1 := { t with state := TaskState.running, invoked := t.invoked + 1 }
    match t1.body with
    | Except.ok v =>
        { t1 with state := TaskState.completed, chan := (set_value t1.chan v).2 }
    | Except.error e =>
        { t1 with state := TaskState.failed, chan := (set_error t1.chan e).2 }

/-- Execute the popped queue head `i` (the remaining queue is `rest`): look
the TCB up and run it via `runTCB` against its token. -/
def popRun {V E : Type} (p : Pool V E) (i : Nat) (rest : List Nat) : Pool V E :=
  match p.tasks[i]? with
  | none => { p with queue := rest }
  | some t =>
      { p with
          queue := rest
          tasks := p.tasks.set i (runTCB (tokenCancelled p t.tokenId) t) }

/-- Modelled from the spec: one worker-loop iteration: pop the queue head and
execute it; an empty queue leaves the pool unchanged (the worker blocks).
Errors of the closure are captured by `runTCB`, so the step is a total
function: nothing propagates out of the worker loop. -/
def workerStep {V E : Type} (p : Pool V E) : Pool V E :=
  match p.queue with
  | [] => p
  | i :: rest => popRun p i rest

/-- Mark the task with the given id cancelled and complete its channel with
the cancelled outcome (used on each drained queue entry at shutdown). -/
def cancelOne {V E : Type} (tasks : List (TCB V E)) (i : Nat) : List (TCB V E) :=
  match tasks[i]? with
  | none => tasks
  | some t => tasks.set i (cancelTCB t)

/-- Modelled from the spec: shutdown under the drain policy: set the
shutting-down flag, atomically remove all queued TCBs and resolve each of
them as cancelled rather than running it. -/
def shutdownDrain {V E : Type} (p : Pool V E) : Pool V E :=
  { p with
      shuttingDown := true
      tasks := p.queue.foldl cancelOne p.tasks
      queue := [] }

/-- Iterate `workerStep` a given number of times. -/
def runSteps {V E : Type} (n : Nat) (p : Pool V E) : Pool V E :=
  match n with
  | 0 => p
  | Nat.succ m => runSteps m (workerStep p)

/-- Run workers until the queue is exhausted. -/
def runQueue {V E : Type} (p : Pool V E) : Pool V E :=
  runSteps p.queue.length p

/-- Modelled from the spec: the operations a history of the pool is built
from: a submission, a cancellation request on a token, a worker iteration,
and a draining shutdown. -/
inductive Op (V E : Type) where
  | submitOp (body : Except E V) (tok : Option Nat)
  | cancelOp (tid : Nat)
  | workerOp
  | drainOp

/-- Apply one operation to the pool. -/
def applyOp {V E : Type} (p : Pool V E) : Op V E → Pool V E
  | .submitOp b tok => (submit p b tok).2
  | .cancelOp tid => cancelToken p tid
  | .workerOp => workerStep p
  | .drainOp => shutdownDrain p

/-- Apply a history of operations in order. -/
def runOps {V E : Type} (p : Pool V E) (ops : List (Op V E)) : Pool V E :=
  ops.foldl applyOp p

/-- The reachable-state invariant of the pool: the queue holds no duplicate
ids, every queued id denotes a task, every queued task is still Queued with
an empty channel and an uninvoked closure, and every task is either still
queued or resolved. -/
structure Inv {V E : Type} (p : Pool V E) : Prop where
  nodup : p.queue.Nodup
  qlt : ∀ i ∈ p.queue, i < p.tasks.length
  qstate : ∀ i ∈ p.queue, ∀ t, p.tasks[i]? = some t →
    t.state = TaskState.queued ∧ t.chan = ChanState.empty ∧ t.invoked = 0
  tstate : ∀ i t, p.tasks[i]? = some t →
    (t.state = TaskState.queued ∧ i ∈ p.queue) ∨ t.resolved

/-- Modelled from the spec: a ResultChannel together with its guarded list of
pending waiter continuations; a continuation is identified by an id, and an
invocation of one is the pair of its id and the outcome it receives. -/
structure Chan (V E : Type) where
  state : ChanState V E
  waiters : List Nat

/-- Modelled from the spec: registering a continuation: if the channel is
already terminal the continuation is scheduled immediately with the stored
outcome rather than missed; otherwise it joins the waiter list.  Returns the
updated channel and the continuation invocations scheduled by this call. -/
def thenAttach {V E : Type} (c : Chan V E) (k : Nat) :
    Chan V E × List (Nat × Outcome V E) :=
  match c.state with
  | .done o => (c, [(k, o)])
  | .empty => ({ c with waiters := c.waiters ++ [k] }, [])

/-- Modelled from the spec: completing the channel: a single transition to the
terminal outcome, which drains the waiter list and schedules every waiter
with that outcome (a second completion schedules nothing new). -/
def completeChan {V E : Type} (c : Chan V E) (o : Outcome V E) :
    Chan V E × List (Nat × Outcome V E) :=
  match c.state with
  | .done _ => (c, [])
  | .empty => (⟨ChanState.done o, []⟩, c.waiters.map (fun k => (k, o)))

/-- All continuation invocations scheduled when `k` is attached before the
channel (waiter list `w`) completes with outcome `o`. -/
def schedBefore {V E : Type} (w : List Nat) (k : Nat) (o : Outcome V E) :
    List (Nat × Outcome V E) :=
  (thenAttach (⟨ChanState.empty, w⟩ : Chan V E) k).2
    ++ (completeChan (thenAttach (⟨ChanState.empty, w⟩ : Chan V E) k).1 o).2

/-- All continuation invocations scheduled when `k` is attached after the
channel (waiter list `w`) has already completed with outcome `o`. -/
def schedAfter {V E : Type} (w : List Nat) (k : Nat) (o : Outcome V E) :
    List (Nat × Outcome V E) :=
  (completeChan (⟨ChanState.empty, w⟩ : Chan V E) o).2
    ++ (thenAttach (completeChan (⟨ChanState.empty, w⟩ : Chan V E) o).1 k).2

end TaskPool

namespace Conan

/-- Embedding of the recipe state of `TaskPoolConan` in `src/conanfile.py`:
its class attributes, the configured settings, the declared binary options
(`none` once deleted by `config_options`), their defaults, and the
`cpp_info.libs` list filled in by `package_info`. -/
structure TaskPoolConan where
  name : String
  version : String
  license : String
  author : String
  url : String
  description : String
  topics : List String
  requires : List String
  generators : List String
  settings_os : String
  settings_compiler : String
  settings_build_type : String
  settings_arch : String
  options_shared : Option (List Bool)
  options_fPIC : Option (List Bool)
  default_shared : Bool
  default_fPIC : Bool
  exports_sources : List String
  cpp_info_libs : List String
  deriving DecidableEq, Repr

/-- The recipe as declared in `src/conanfile.py`, instantiated at a given
settings combination; `cpp_info_libs` starts empty until `package_info`. -/
def mkRecipe (os compiler build_type arch : String) : TaskPoolConan :=
  { name := "task_pool"
    version := "0.0"
    license := "MIT"
    author := "Benny Edlund benny.edlund@gmail.com"
    url := "https://github.com/benny-edlund/task-pool"
    description := "A portable task orient thread pool library compatible with C++14 with support for custom allocators, cooperative cancellation and more"
    topics := ["threadpool", "thread", "asynchronous", "concurrency", "task", "c++"]
    requires := ["catch2/2.13.9"]
    generators := ["cmake_find_package_multi"]
    settings_os := os
    settings_compiler := compiler
    settings_build_type := build_type
    settings_arch := arch
    options_shared := some [true, false]
    options_fPIC := some [true, false]
    default_shared := false
    default_fPIC := true
    exports_sources := ["CMakeLists.txt", "conanfile.py", "lib/*", "configured_files/*", "test/*"]
    cpp_info_libs := [] }

/-- `TaskPoolConan.config_options` from `src/conanfile.py`: on Windows it
deletes the `fPIC` option, otherwise it does nothing. -/
def config_options (r : TaskPoolConan) : TaskPoolConan :=
  if r.settings_os = "Windows" then { r with options_fPIC := none } else r

/-- `TaskPoolConan.package_info` from `src/conanfile.py`: sets
`cpp_info.libs` to the literal one-element list. -/
def package_info (r : TaskPoolConan) : TaskPoolConan :=
  { r with cpp_info_libs := ["task_pool"] }

end Conan

namespace TaskPool

/-- The second component of `trySet` is always a completed channel. -/
theorem trySet_snd_done {V E : Type} (c : ChanState V E) (o : Outcome V E) :
    ∃ o2, (trySet c o).2 = ChanState.done o2 := by
  cases c with
  | empty => exact ⟨o, rfl⟩
  | done o0 => exact ⟨o0, rfl⟩

/-- `cancelTCB` yields a resolved TCB. -/
theorem cancelTCB_resolved {V E : Type} (t : TCB V E) : (cancelTCB t).resolved := by
  refine ⟨rfl, ?_⟩
  exact trySet_snd_done t.chan Outcome.cancelled

/-- On a TCB with an empty channel, `cancelTCB` stores the cancelled
outcome. -/
theorem cancelTCB_of_empty {V E : Type} (t : TCB V E) (h : t.chan = ChanState.empty) :
    cancelTCB t
      = { t with
            state := TaskState.cancelled
            chan := ChanState.done Outcome.cancelled } := by
  simp [cancelTCB, set_cancelled, h, trySet]

/-- Whatever a worker does to a popped TCB leaves it resolved. -/
theorem runTCB_resolved {V E : Type} (c : Bool) (t : TCB V E) :
    (runTCB c t).resolved := by
  cases c with
  | true => simpa [runTCB] using cancelTCB_resolved t
  | false =>
    cases hb : t.body with
    | ok v =>
      refine ⟨?_, ?_⟩
      · simp [runTCB, hb, TaskState.isTerminal]
      · simpa [runTCB, hb, set_value] using trySet_snd_done t.chan (Outcome.value v)
    | error e =>
      refine ⟨?_, ?_⟩
      · simp [runTCB, hb, TaskState.isTerminal]
      · simpa [runTCB, hb, set_error] using trySet_snd_done t.chan (Outcome.error e)

/-- C4: A ResultChannel admits at most one producer transition out of `empty`:
each of `set_value`, `set_error`, `set_cancelled` succeeds from `empty`,
while any completion attempt on an already-completed channel fails with the
internal contract-violation error and leaves the stored terminal outcome
unchanged. -/
theorem resultChannel_one_shot {V E : Type} (v : V) (e : E) (o : Outcome V E) :
    set_value (ChanState.empty : ChanState V E) v
        = (Except.ok (), ChanState.done (Outcome.value v))
    ∧ set_error (ChanState.empty : ChanState V E) e
        = (Except.ok (), ChanState.done (Outcome.error e))
    ∧ set_cancelled (ChanState.empty : ChanState V E)
        = (Except.ok (), ChanState.done Outcome.cancelled)
    ∧ set_value (ChanState.done o) v
        = (Except.error ChanError.contractViolation, ChanState.done o)
    ∧ set_error (ChanState.done o) e
        = (Except.error ChanError.contractViolation, ChanState.done o)
    ∧ set_cancelled (ChanState.done o)
        = (Except.error ChanError.contractViolation, ChanState.done o) :=
  ⟨rfl, rfl, rfl, rfl, rfl, rfl⟩

/-- C6: `request_cancel` is idempotent: on an already-cancelled token it
changes nothing (and being a total function it signals no error), and
cancelling twice equals cancelling once. -/
theorem request_cancel_idempotent (t : Token) (h : t.cancelled = true) :
    request_cancel t = t
    ∧ request_cancel (request_cancel t) = request_cancel t := by
  cases t with
  | mk c =>
    cases h
    exact ⟨rfl, rfl⟩

/-- Witness for C6 at a concrete cancelled token. -/
theorem request_cancel_idempotent_witness :
    (Token.mk true).cancelled = true
    ∧ (request_cancel (Token.mk true) = Token.mk true
       ∧ request_cancel (request_cancel (Token.mk true))
           = request_cancel (Token.mk true)) :=
  ⟨rfl, request_cancel_idempotent (Token.mk true) rfl⟩

/-- `Inv` holds of a freshly constructed pool. -/
theorem inv_init {V E : Type} : Inv (Pool.init : Pool V E) := by
  refine ⟨?_, ?_, ?_, ?_⟩
  · simp [Pool.init]
  · intro i hi
    simp [Pool.init] at hi
  · intro i hi
    simp [Pool.init] at hi
  · intro i t ht
    simp [Pool.init] at ht

/-- Appending a fresh queued TCB at the end of the task list and the queue
preserves the invariant (the token flags play no role in it). -/
theorem inv_enqueue {V E : Type} (p : Pool V E) (h : Inv p) (tks : List Bool)
    (t : TCB V E) (hq : t.state = TaskState.queued)
    (hc : t.chan = ChanState.empty) (hi : t.invoked = 0) :
    Inv { p with
            tasks := p.tasks ++ [t]
            tokens := tks
            queue := p.queue ++ [p.tasks.length] } := by
  have hfresh : p.tasks.length ∉ p.queue := by
    intro hmem
    exact absurd (h.qlt _ hmem) (lt_irrefl _)
  refine ⟨?_, ?_, ?_, ?_⟩
  · exact List.nodup_append.mpr
      ⟨h.nodup, List.nodup_singleton _, List.disjoint_singleton.mpr hfresh⟩
  · intro i hi2
    rcases List.mem_append.mp hi2 with hm | hm
    · have := h.qlt i hm
      simp only [List.length_append, List.length_singleton]
      omega
    · have heq : i = p.tasks.length := by simpa using hm
      simp only [List.length_append, List.length_singleton, heq]
      omega
  · intro i hi2 u hu
    rcases List.mem_append.mp hi2 with hm | hm
    · rw [List.getElem?_append_left (h.qlt i hm)] at hu
      exact h.qstate i hm u hu
    · have heq : i = p.tasks.length := by simpa using hm
      subst heq
      rw [List.getElem?_concat_length] at hu
      cases hu
      exact ⟨hq, hc, hi⟩
  · intro i u hu
    by_cases hlt : i < p.tasks.length
    · rw [List.getElem?_append_left hlt] at hu
      rcases h.tstate i u hu with ⟨hs, hm⟩ | hr
      · exact Or.inl ⟨hs, List.mem_append.mpr (Or.inl hm)⟩
      · exact Or.inr hr
    · by_cases heq : i = p.tasks.length
      · subst heq
        rw [List.getElem?_concat_length] at hu
        cases hu
        exact Or.inl ⟨hq, List.mem_append.mpr (Or.inr (List.mem_singleton.mpr rfl))⟩
      · have hnone : (p.tasks ++ [t])[i]? = none := by
          apply List.getElem?_eq_none
          simp only [List.length_append, List.length_singleton]
          omega
        rw [hnone] at hu
        cases hu

/-- `submit` preserves the invariant. -/
theorem inv_submit {V E : Type} (p : Pool V E) (h : Inv p) (b : Except E V)
    (tok : Option Nat) : Inv (submit p b tok).2 := by
  by_cases hs : p.shuttingDown = true
  · simpa [submit, hs] using h
  · cases tok with
    | some tid =>
      simpa [submit, hs] using
        inv_enqueue p h p.tokens
          ⟨tid, b, TaskState.queued, ChanState.empty, 0⟩ rfl rfl rfl
    | none =>
      simpa [submit, hs] using
        inv_enqueue p h (p.tokens ++ [false])
          ⟨p.tokens.length, b, TaskState.queued, ChanState.empty, 0⟩ rfl rfl rfl

/-- Requesting cancellation only touches the token flags, so the invariant is
untouched. -/
theorem inv_cancelToken {V E : Type} (p : Pool V E) (h : Inv p) (tid : Nat) :
    Inv (cancelToken p tid) :=
  ⟨h.nodup, h.qlt, h.qstate, h.tstate⟩

/-- A worker step on an empty queue leaves the pool unchanged. -/
theorem workerStep_nil {V E : Type} (p : Pool V E) (h : p.queue = []) :
    workerStep p = p := by
  simp [workerStep, h]

/-- A worker step on a non-empty queue is `popRun` on its head. -/
theorem workerStep_cons {V E : Type} (p : Pool V E) (i : Nat)
    (rest : List Nat) (h : p.queue = i :: rest) :
    workerStep p = popRun p i rest := by
  unfold workerStep
  rw [h]

/-- `popRun` on a known TCB sets its executed form at its index. -/
theorem popRun_some {V E : Type} (p : Pool V E) (i : Nat) (rest : List Nat)
    (t : TCB V E) (ht : p.tasks[i]? = some t) :
    popRun p i rest =
      { p with
          queue := rest
          tasks := p.tasks.set i (runTCB (tokenCancelled p t.tokenId) t) } := by
  unfold popRun
  rw [ht]

/-- A worker step never changes the token flags. -/
theorem workerStep_tokens {V E : Type} (p : Pool V E) :
    (workerStep p).tokens = p.tokens := by
  cases hq : p.queue with
  | nil => rw [workerStep_nil p hq]
  | cons i rest =>
    rw [workerStep_cons p i rest hq]
    unfold popRun
    cases p.tasks[i]? <;> rfl

/-- A worker step pops the queue head. -/
theorem workerStep_queue_cons {V E : Type} (p : Pool V E) (i : Nat)
    (rest : List Nat) (h : p.queue = i :: rest) : (workerStep p).queue = rest := by
  rw [workerStep_cons p i rest h]
  unfold popRun
  cases p.tasks[i]? <;> rfl

/-- A worker step shortens the queue by one. -/
theorem workerStep_queue_length {V E : Type} (p : Pool V E) :
    (workerStep p).queue.length = p.queue.length - 1 := by
  cases hq : p.queue with
  | nil =>
    rw [workerStep_nil p hq]
    simp [hq]
  | cons i rest =>
    rw [workerStep_queue_cons p i rest hq]
    simp [hq]

/-- A worker step preserves the invariant. -/
theorem inv_workerStep {V E : Type} (p : Pool V E) (h : Inv p) :
    Inv (workerStep p) := by
  cases hq : p.queue with
  | nil =>
    rw [workerStep_nil p hq]
    exact h
  | cons j rest =>
    have hjmem : j ∈ p.queue := by
      rw [hq]
      exact List.mem_cons_self j rest
    have hjlt : j < p.tasks.length := h.qlt j hjmem
    cases ht : p.tasks[j]? with
    | none =>
      have := List.getElem?_eq_none_iff.mp ht
      omega
    | some w =>
      have hstep : workerStep p =
          { p with
              queue := rest
              tasks := p.tasks.set j (runTCB (tokenCancelled p w.tokenId) w) } := by
        rw [workerStep_cons p j rest hq]
        exact popRun_some p j rest w ht
      rw [hstep]
      have hjnotrest : j ∉ rest := by
        have hnd := h.nodup
        rw [hq] at hnd
        exact (List.nodup_cons.mp hnd).1
      refine ⟨?_, ?_, ?_, ?_⟩
      · have hnd := h.nodup
        rw [hq] at hnd
        exact (List.nodup_cons.mp hnd).2
      · intro i hi
        have hmem : i ∈ p.queue := by
          rw [hq]
          exact List.mem_cons_of_mem j hi
        have := h.qlt i hmem
        simpa [List.length_set] using this
      · intro i hi u hu
        have hine : j ≠ i := fun he => hjnotrest (he ▸ hi)
        rw [List.getElem?_set_ne hine] at hu
        exact h.qstate i (by rw [hq]; exact List.mem_cons_of_mem j hi) u hu
      · intro i u hu
        by_cases hij : j = i
        · subst hij
          rw [List.getElem?_set_self hjlt] at hu
          cases hu
          exact Or.inr (runTCB_resolved _ w)
        · rw [List.getElem?_set_ne hij] at hu
          rcases h.tstate i u hu with ⟨hs, hm⟩ | hr
          · rw [hq] at hm
            rcases List.mem_cons.mp hm with he | hm2
            · exact absurd he.symm hij
            · exact Or.inl ⟨hs, hm2⟩
          · exact Or.inr hr

/-- `cancelOne` on one index leaves every other index unchanged. -/
theorem cancelOne_getElem_ne {V E : Type} (ts : List (TCB V E)) (j i : Nat)
    (h : j ≠ i) : (cancelOne ts j)[i]? = ts[i]? := by
  unfold cancelOne
  cases ts[j]? with
  | none => rfl
  | some t => exact List.getElem?_set_ne h

/-- `cancelOne` resolves the task at its index as cancelled. -/
theorem cancelOne_getElem_self {V E : Type} (ts : List (TCB V E)) (j : Nat) :
    (cancelOne ts j)[j]? = (ts[j]?).map cancelTCB := by
  unfold cancelOne
  cases ht : ts[j]? with
  | none => simp [ht]
  | some t =>
    have hlt : j < ts.length := (List.getElem?_eq_some_iff.mp ht).1
    rw [List.getElem?_set_self hlt]
    rfl

/-- Draining a list of ids not containing `i` leaves index `i` unchanged. -/
theorem foldl_cancelOne_not_mem {V E : Type} (l : List Nat) :
    ∀ (ts : List (TCB V E)) (i : Nat), i ∉ l →
      (l.foldl cancelOne ts)[i]? = ts[i]? := by
  induction l with
  | nil =>
    intro ts i _
    rfl
  | cons j l2 ih =>
    intro ts i hi
    have hij : j ≠ i := by
      intro he
      exact hi (by rw [← he]; exact List.mem_cons_self j l2)
    have hil2 : i ∉ l2 := fun hm => hi (List.mem_cons_of_mem j hm)
    calc (List.foldl cancelOne (cancelOne ts j) l2)[i]?
        = (cancelOne ts j)[i]? := ih (cancelOne ts j) i hil2
      _ = ts[i]? := cancelOne_getElem_ne ts j i hij

/-- Draining a duplicate-free list of ids containing `i` resolves index `i`
as cancelled. -/
theorem foldl_cancelOne_mem {V E : Type} (l : List Nat) :
    ∀ (ts : List (TCB V E)) (i : Nat), l.Nodup → i ∈ l →
      (l.foldl cancelOne ts)[i]? = (ts[i]?).map cancelTCB := by
  induction l with
  | nil =>
    intro ts i _ hm
    cases hm
  | cons j l2 ih =>
    intro ts i hnd hm
    have hnd2 := List.nodup_cons.mp hnd
    by_cases hij : i = j
    · subst hij
      calc (List.foldl cancelOne (cancelOne ts i) l2)[i]?
          = (cancelOne ts i)[i]? :=
            foldl_cancelOne_not_mem l2 (cancelOne ts i) i hnd2.1
        _ = (ts[i]?).map cancelTCB := cancelOne_getElem_self ts i
    · have him2 : i ∈ l2 := by
        rcases List.mem_cons.mp hm with he | h2
        · exact absurd he hij
        · exact h2
      calc (List.foldl cancelOne (cancelOne ts j) l2)[i]?
          = ((cancelOne ts j)[i]?).map cancelTCB :=
            ih (cancelOne ts j) i hnd2.2 him2
        _ = (ts[i]?).map cancelTCB := by
            rw [cancelOne_getElem_ne ts j i (fun he => hij he.symm)]

/-- At drain, a task that was still queued is resolved as cancelled. -/
theorem shutdownDrain_tasks_mem {V E : Type} (p : Pool V E) (h : Inv p)
    (i : Nat) (hm : i ∈ p.queue) :
    (shutdownDrain p).tasks[i]? = (p.tasks[i]?).map cancelTCB :=
  foldl_cancelOne_mem p.queue p.tasks i h.nodup hm

/-- At drain, a task no longer queued keeps its record. -/
theorem shutdownDrain_tasks_not_mem {V E : Type} (p : Pool V E) (i : Nat)
    (hm : i ∉ p.queue) :
    (shutdownDrain p).tasks[i]? = p.tasks[i]? :=
  foldl_cancelOne_not_mem p.queue p.tasks i hm

/-- A draining shutdown preserves the invariant, resolving every task. -/
theorem inv_shutdownDrain {V E : Type} (p : Pool V E) (h : Inv p) :
    Inv (shutdownDrain p) := by
  refine ⟨?_, ?_, ?_, ?_⟩
  · simp [shutdownDrain]
  · intro i hi
    simp [shutdownDrain] at hi
  · intro i hi
    simp [shutdownDrain] at hi
  · intro i u hu
    refine Or.inr ?_
    by_cases hm : i ∈ p.queue
    · rw [shutdownDrain_tasks_mem p h i hm] at hu
      rcases Option.map_eq_some'.mp hu with ⟨t, ht, hct⟩
      rw [← hct]
      exact cancelTCB_resolved t
    · rw [shutdownDrain_tasks_not_mem p i hm] at hu
      rcases h.tstate i u hu with ⟨hs, hmem⟩ | hr
      · exact absurd hmem hm
      · exact hr

/-- Every pool operation preserves the invariant. -/
theorem inv_applyOp {V E : Type} (p : Pool V E) (h : Inv p) (op : Op V E) :
    Inv (applyOp p op) := by
  cases op with
  | submitOp b tok => exact inv_submit p h b tok
  | cancelOp tid => exact inv_cancelToken p h tid
  | workerOp => exact inv_workerStep p h
  | drainOp => exact inv_shutdownDrain p h

/-- Every history of pool operations preserves the invariant. -/
theorem inv_runOps {V E : Type} (ops : List (Op V E)) :
    ∀ p : Pool V E, Inv p → Inv (runOps p ops) := by
  induction ops with
  | nil =>
    intro p h
    exact h
  | cons op ops2 ih =>
    intro p h
    exact ih (applyOp p op) (inv_applyOp p h op)

/-- C1: After any history of submissions, cancellations, worker iterations
and shutdowns, followed by the draining shutdown, every task ever submitted
is in a terminal state and exactly one terminal outcome — never zero, never
more than one — is observable through its Future: no silent task loss, even
for tasks drained at shutdown. -/
theorem submitted_tasks_resolve {V E : Type} (ops : List (Op V E)) (i : Nat)
    (t : TCB V E)
    (h : (shutdownDrain (runOps Pool.init ops)).tasks[i]? = some t) :
    t.state.isTerminal = true ∧ ∃! o, futureGet t.chan = some o := by
  have hI : Inv (runOps (Pool.init : Pool V E) ops) :=
    inv_runOps ops Pool.init inv_init
  have hI2 : Inv (shutdownDrain (runOps (Pool.init : Pool V E) ops)) :=
    inv_shutdownDrain _ hI
  rcases hI2.tstate i t h with ⟨hs, hm⟩ | hr
  · simp [shutdownDrain] at hm
  · obtain ⟨hterm, o, ho⟩ := hr
    refine ⟨hterm, ⟨o, ?_, ?_⟩⟩
    · simp [futureGet, ho]
    · intro o2 h2
      simp [futureGet, ho] at h2
      exact h2.symm

/-- Witness for C1: one task submitted and then drained at shutdown. -/
theorem submitted_tasks_resolve_witness :
    TaskState.cancelled.isTerminal = true
    ∧ ∃! o, futureGet (ChanState.done (Outcome.cancelled : Outcome Nat Nat))
        = some o :=
  submitted_tasks_resolve [Op.submitOp (Except.ok 5) none] 0
    ⟨0, Except.ok 5, TaskState.cancelled, ChanState.done Outcome.cancelled, 0⟩ rfl

/-- A task whose state is Queued is still in the queue. -/
theorem queued_mem_queue {V E : Type} (p : Pool V E) (h : Inv p) (i : Nat)
    (t : TCB V E) (ht : p.tasks[i]? = some t)
    (hs : t.state = TaskState.queued) : i ∈ p.queue := by
  rcases h.tstate i t ht with ⟨_, hm⟩ | hr
  · exact hm
  · obtain ⟨hterm, _⟩ := hr
    rw [hs] at hterm
    simp [TaskState.isTerminal] at hterm

/-- A worker step leaves an already-resolved task's record unchanged. -/
theorem workerStep_keeps_resolved {V E : Type} (p : Pool V E) (h : Inv p)
    (i : Nat) (t : TCB V E) (ht : p.tasks[i]? = some t) (hr : t.resolved) :
    (workerStep p).tasks[i]? = some t := by
  cases hq : p.queue with
  | nil =>
    rw [workerStep_nil p hq]
    exact ht
  | cons j rest =>
    cases hg : p.tasks[j]? with
    | none =>
      rw [workerStep_cons p j rest hq]
      unfold popRun
      rw [hg]
      exact ht
    | some w =>
      have hwq : w.state = TaskState.queued :=
        (h.qstate j (by rw [hq]; exact List.mem_cons_self j rest) w hg).1
      have hij : j ≠ i := by
        intro he
        subst he
        rw [ht] at hg
        cases hg
        obtain ⟨hterm, _⟩ := hr
        rw [hwq] at hterm
        simp [TaskState.isTerminal] at hterm
      rw [workerStep_cons p j rest hq, popRun_some p j rest w hg]
      have : (p.tasks.set j (runTCB (tokenCancelled p w.tokenId) w))[i]?
          = p.tasks[i]? := List.getElem?_set_ne hij
      rw [this]
      exact ht

/-- Running workers leaves every already-resolved task's record unchanged. -/
theorem runSteps_keeps_resolved {V E : Type} (n : Nat) :
    ∀ (p : Pool V E) (i : Nat) (t : TCB V E), Inv p → p.tasks[i]? = some t →
      t.resolved → (runSteps n p).tasks[i]? = some t := by
  induction n with
  | zero =>
    intro p i t _ ht _
    exact ht
  | succ m ih =>
    intro p i t hI ht hr
    exact ih (workerStep p) i t (inv_workerStep p hI)
      (workerStep_keeps_resolved p hI i t ht hr) hr

/-- Running enough worker steps resolves a queued task with a cancelled token
as cancelled, without invoking its closure. -/
theorem runSteps_cancelled_token {V E : Type} (n : Nat) :
    ∀ (p : Pool V E) (i : Nat) (t : TCB V E), Inv p → p.queue.length ≤ n →
      p.tasks[i]? = some t → t.state = TaskState.queued →
      tokenCancelled p t.tokenId = true →
      (runSteps n p).tasks[i]? = some
        { t with
            state := TaskState.cancelled
            chan := ChanState.done Outcome.cancelled } := by
  induction n with
  | zero =>
    intro p i t hI hlen ht hs hc
    have hm := queued_mem_queue p hI i t ht hs
    have hnil : p.queue = [] := List.eq_nil_of_length_eq_zero (Nat.le_zero.mp hlen)
    rw [hnil] at hm
    cases hm
  | succ m ih =>
    intro p i t hI hlen ht hs hc
    have hm := queued_mem_queue p hI i t ht hs
    cases hq : p.queue with
    | nil =>
      rw [hq] at hm
      cases hm
    | cons j rest =>
      by_cases hij : j = i
      · subst hij
        have hjlt : j < p.tasks.length := (List.getElem?_eq_some_iff.mp ht).1
        have hchan : t.chan = ChanState.empty :=
          (hI.qstate j (by rw [hq]; exact List.mem_cons_self j rest) t ht).2.1
        have hrun : runTCB (tokenCancelled p t.tokenId) t
            = { t with
                  state := TaskState.cancelled
                  chan := ChanState.done Outcome.cancelled } := by
          rw [hc]
          simpa [runTCB] using cancelTCB_of_empty t hchan
        have hstep : workerStep p =
            { p with
                queue := rest
                tasks := p.tasks.set j (runTCB (tokenCancelled p t.tokenId) t) } := by
          rw [workerStep_cons p j rest hq]
          exact popRun_some p j rest t ht
        have hafter : (workerStep p).tasks[j]? = some
            { t with
                state := TaskState.cancelled
                chan := ChanState.done Outcome.cancelled } := by
          rw [hstep]
          have : (p.tasks.set j (runTCB (tokenCancelled p t.tokenId) t))[j]?
              = some (runTCB (tokenCancelled p t.tokenId) t) :=
            List.getElem?_set_self hjlt
          rw [this, hrun]
        exact runSteps_keeps_resolved m (workerStep p) j _
          (inv_workerStep p hI) hafter ⟨rfl, Outcome.cancelled, rfl⟩
      · have hstep_get : (workerStep p).tasks[i]? = p.tasks[i]? := by
          cases hg : p.tasks[j]? with
          | none =>
            rw [workerStep_cons p j rest hq]
            unfold popRun
            rw [hg]
          | some w =>
            rw [workerStep_cons p j rest hq, popRun_some p j rest w hg]
            exact List.getElem?_set_ne hij
        have htok : tokenCancelled (workerStep p) t.tokenId = true := by
          show (((workerStep p).tokens)[t.tokenId]?).getD false = true
          rw [workerStep_tokens p]
          exact hc
        have hlen2 : (workerStep p).queue.length ≤ m := by
          have h1 := workerStep_queue_length p
          rw [hq] at h1 hlen
          rw [h1]
          simp at hlen ⊢
          omega
        exact ih (workerStep p) i t (inv_workerStep p hI) hlen2
          (by rw [hstep_get]; exact ht) hs htok

/-- C3: If a task's cancellation token is set while the task is still Queued,
then running the queue to exhaustion never invokes the task's closure (its
invocation count stays at its queued value, zero) and resolves its Future to
the Cancelled outcome. -/
theorem cancel_before_run {V E : Type} (p : Pool V E) (hI : Inv p) (i : Nat)
    (t : TCB V E) (ht : p.tasks[i]? = some t)
    (hs : t.state = TaskState.queued)
    (hc : tokenCancelled p t.tokenId = true) :
    (runQueue p).tasks[i]? = some
        { t with
            state := TaskState.cancelled
            chan := ChanState.done Outcome.cancelled }
    ∧ t.invoked = 0
    ∧ futureGet (ChanState.done (Outcome.cancelled : Outcome V E))
        = some Outcome.cancelled := by
  refine ⟨?_, ?_, rfl⟩
  · exact runSteps_cancelled_token p.queue.length p i t hI (le_refl _) ht hs hc
  · exact (hI.qstate i (queued_mem_queue p hI i t ht hs) t ht).2.2

/-- Witness for C3: one submitted task whose token is cancelled while it is
still queued. -/
theorem cancel_before_run_witness :
    (runQueue (runOps (Pool.init : Pool Nat Nat)
        [Op.submitOp (Except.ok 5) none, Op.cancelOp 0])).tasks[0]?
      = some ⟨0, Except.ok 5, TaskState.cancelled,
          ChanState.done Outcome.cancelled, 0⟩
    ∧ (0 : Nat) = 0
    ∧ futureGet (ChanState.done (Outcome.cancelled : Outcome Nat Nat))
        = some Outcome.cancelled :=
  cancel_before_run
    (runOps (Pool.init : Pool Nat Nat)
      [Op.submitOp (Except.ok 5) none, Op.cancelOp 0])
    (inv_runOps [Op.submitOp (Except.ok 5) none, Op.cancelOp 0]
      Pool.init inv_init)
    0 ⟨0, Except.ok 5, TaskState.queued, ChanState.empty, 0⟩ rfl rfl rfl

/-- C5: A closure that produces an error never lets the error escape the
worker loop: the worker stores it verbatim in the ResultChannel as the error
outcome, the consumer recovers exactly that error through the Future, and the
worker goes on to the rest of the queue. -/
theorem task_error_captured {V E : Type} (p : Pool V E) (i : Nat)
    (rest : List Nat) (hq : p.queue = i :: rest) (t : TCB V E)
    (ht : p.tasks[i]? = some t) (hch : t.chan = ChanState.empty) (e : E)
    (hb : t.body = Except.error e)
    (hc : tokenCancelled p t.tokenId = false) :
    (workerStep p).tasks[i]? =
        some { t with
                 state := TaskState.failed
                 chan := ChanState.done (Outcome.error e)
                 invoked := t.invoked + 1 }
    ∧ futureGet (ChanState.done (Outcome.error e) : ChanState V E)
        = some (Outcome.error e)
    ∧ (workerStep p).queue = rest := by
  have hlt : i < p.tasks.length := (List.getElem?_eq_some_iff.mp ht).1
  have hrun : runTCB (tokenCancelled p t.tokenId) t
      = { t with
            state := TaskState.failed
            chan := ChanState.done (Outcome.error e)
            invoked := t.invoked + 1 } := by
    rw [hc]
    simp [runTCB, hb, set_error, hch, trySet]
  refine ⟨?_, rfl, workerStep_queue_cons p i rest hq⟩
  rw [workerStep_cons p i rest hq, popRun_some p i rest t ht]
  have : (p.tasks.set i (runTCB (tokenCancelled p t.tokenId) t))[i]?
      = some (runTCB (tokenCancelled p t.tokenId) t) :=
    List.getElem?_set_self hlt
  rw [this, hrun]

/-- Witness for C5: a task whose closure produces the error 7. -/
theorem task_error_captured_witness :
    (workerStep (runOps (Pool.init : Pool Nat Nat)
        [Op.submitOp (Except.error 7) none])).tasks[0]?
      = some ⟨0, Except.error 7, TaskState.failed,
          ChanState.done (Outcome.error 7), 1⟩
    ∧ futureGet (ChanState.done (Outcome.error (7 : Nat) : Outcome Nat Nat))
        = some (Outcome.error 7)
    ∧ (workerStep (runOps (Pool.init : Pool Nat Nat)
        [Op.submitOp (Except.error 7) none])).queue = [] :=
  task_error_captured
    (runOps (Pool.init : Pool Nat Nat) [Op.submitOp (Except.error 7) none])
    0 [] rfl ⟨0, Except.error 7, TaskState.queued, ChanState.empty, 0⟩
    rfl rfl 7 rfl rfl

/-- C2: Once shutdown has begun, every `submit` fails: it returns the
rejection error, hands out no Future, and leaves the pool — in particular the
task queue — unchanged, whatever closure or token is offered. -/
theorem submit_rejected_after_shutdown {V E : Type} (p : Pool V E)
    (b : Except E V) (tok : Option Nat) (h : p.shuttingDown = true) :
    submit p b tok = (Except.error PoolError.submissionRejected, p) := by
  simp [submit, h]

/-- Witness for C2 on a concrete shutting-down pool. -/
theorem submit_rejected_after_shutdown_witness :
    ((⟨[], [], [], true⟩ : Pool Nat Nat).shuttingDown = true)
    ∧ submit (⟨[], [], [], true⟩ : Pool Nat Nat) (Except.ok 1) none
        = (Except.error PoolError.submissionRejected, ⟨[], [], [], true⟩) :=
  ⟨rfl, submit_rejected_after_shutdown (⟨[], [], [], true⟩ : Pool Nat Nat)
    (Except.ok 1) none rfl⟩

/-- A cancelled token flag is stored as `some true`. -/
theorem tokenCancelled_eq_some {V E : Type} (p : Pool V E) (tid : Nat)
    (hc : tokenCancelled p tid = true) : p.tokens[tid]? = some true := by
  unfold tokenCancelled at hc
  cases hg : p.tokens[tid]? with
  | none =>
    rw [hg] at hc
    simp at hc
  | some b =>
    rw [hg] at hc
    simp at hc
    rw [hc]

/-- On a task id already present, `submit` does not change the stored TCB. -/
theorem submit_tasks_getElem {V E : Type} (p : Pool V E) (b : Except E V)
    (tok : Option Nat) (i : Nat) (hlt : i < p.tasks.length) :
    (submit p b tok).2.tasks[i]? = p.tasks[i]? := by
  unfold submit
  by_cases hs : p.shuttingDown = true
  · rw [if_pos hs]
  · rw [if_neg hs]
    cases tok with
    | some tid => exact List.getElem?_append_left hlt
    | none => exact List.getElem?_append_left hlt

/-- `submit` never clears a cancelled token. -/
theorem submit_tokens_mono {V E : Type} (p : Pool V E) (b : Except E V)
    (tok : Option Nat) (tid : Nat) (hc : tokenCancelled p tid = true) :
    tokenCancelled (submit p b tok).2 tid = true := by
  have hsome := tokenCancelled_eq_some p tid hc
  have hlt : tid < p.tokens.length := (List.getElem?_eq_some_iff.mp hsome).1
  unfold tokenCancelled submit
  by_cases hs : p.shuttingDown = true
  · rw [if_pos hs]
    exact hc
  · rw [if_neg hs]
    cases tok with
    | some t0 => exact hc
    | none =>
      show ((p.tokens ++ [false])[tid]?).getD false = true
      rw [List.getElem?_append_left hlt, hsome]
      rfl

/-- `cancelToken` never clears a cancelled token. -/
theorem cancelToken_tokens_mono {V E : Type} (p : Pool V E) (tid2 tid : Nat)
    (hc : tokenCancelled p tid = true) :
    tokenCancelled (cancelToken p tid2) tid = true := by
  have hsome := tokenCancelled_eq_some p tid hc
  have hlt : tid < p.tokens.length := (List.getElem?_eq_some_iff.mp hsome).1
  show ((p.tokens.set tid2 true)[tid]?).getD false = true
  by_cases he : tid2 = tid
  · subst he
    rw [List.getElem?_set_self (by omega)]
    rfl
  · rw [List.getElem?_set_ne he, hsome]
    rfl

/-- Executing a queued TCB moves its state along the allowed transition
diagram. -/
theorem runTCB_step {V E : Type} (c : Bool) (t : TCB V E)
    (hs : t.state = TaskState.queued) :
    Relation.ReflTransGen TaskStep t.state (runTCB c t).state := by
  cases c with
  | true =>
    have hu : (runTCB true t).state = TaskState.cancelled := rfl
    rw [hs, hu]
    exact Relation.ReflTransGen.single TaskStep.cancelQueued
  | false =>
    cases hb : t.body with
    | ok v =>
      have hu : (runTCB false t).state = TaskState.completed := by
        simp [runTCB, hb]
      rw [hs, hu]
      exact Relation.ReflTransGen.head TaskStep.start
        (Relation.ReflTransGen.single TaskStep.finishOk)
    | error e =>
      have hu : (runTCB false t).state = TaskState.failed := by
        simp [runTCB, hb]
      rw [hs, hu]
      exact Relation.ReflTransGen.head TaskStep.start
        (Relation.ReflTransGen.single TaskStep.finishErr)

/-- C7: Terminal states are absorbing: no allowed TCB transition leaves a
terminal state; every pool operation moves every task's state only along the
diagram `Queued → Running → (Completed | Failed | Cancelled)` (with the
queued-to-cancelled short-circuit); a task already terminal keeps its exact
record under every operation; and cancellation tokens are monotonic — once
cancelled, no operation resets them. -/
theorem terminal_absorbing {V E : Type} :
    (∀ s u : TaskState, TaskStep s u → s.isTerminal = false)
    ∧ (∀ (p : Pool V E), Inv p → ∀ (op : Op V E) (i : Nat) (t u : TCB V E),
        p.tasks[i]? = some t → (applyOp p op).tasks[i]? = some u →
        Relation.ReflTransGen TaskStep t.state u.state)
    ∧ (∀ (p : Pool V E), Inv p → ∀ (op : Op V E) (i : Nat) (t : TCB V E),
        p.tasks[i]? = some t → t.state.isTerminal = true →
        (applyOp p op).tasks[i]? = some t)
    ∧ (∀ (p : Pool V E) (op : Op V E) (tid : Nat),
        tokenCancelled p tid = true →
        tokenCancelled (applyOp p op) tid = true) := by
  refine ⟨?_, ?_, ?_, ?_⟩
  · intro s u hstep
    cases hstep <;> rfl
  · intro p hI op i t u ht hu
    cases op with
    | submitOp b tok =>
      have hlt : i < p.tasks.length := (List.getElem?_eq_some_iff.mp ht).1
      have hu2 : (submit p b tok).2.tasks[i]? = some u := hu
      rw [submit_tasks_getElem p b tok i hlt, ht] at hu2
      cases hu2
      exact Relation.ReflTransGen.refl
    | cancelOp tid =>
      have hu2 : p.tasks[i]? = some u := hu
      rw [ht] at hu2
      cases hu2
      exact Relation.ReflTransGen.refl
    | workerOp =>
      have hu2 : (workerStep p).tasks[i]? = some u := hu
      cases hq : p.queue with
      | nil =>
        rw [workerStep_nil p hq, ht] at hu2
        cases hu2
        exact Relation.ReflTransGen.refl
      | cons j rest =>
        cases hg : p.tasks[j]? with
        | none =>
          rw [workerStep_cons p j rest hq] at hu2
          unfold popRun at hu2
          rw [hg] at hu2
          have hu3 : p.tasks[i]? = some u := hu2
          rw [ht] at hu3
          cases hu3
          exact Relation.ReflTransGen.refl
        | some w =>
          rw [workerStep_cons p j rest hq, popRun_some p j rest w hg] at hu2
          have hu3 : (p.tasks.set j (runTCB (tokenCancelled p w.tokenId) w))[i]?
              = some u := hu2
          by_cases hij : j = i
          · subst hij
            have hjlt : j < p.tasks.length :=
              (List.getElem?_eq_some_iff.mp ht).1
            rw [List.getElem?_set_self hjlt] at hu3
            cases hu3
            rw [ht] at hg
            cases hg
            exact runTCB_step (tokenCancelled p t.tokenId) t
              (hI.qstate j (by rw [hq]; exact List.mem_cons_self j rest) t ht).1
          · rw [List.getElem?_set_ne hij, ht] at hu3
            cases hu3
            exact Relation.ReflTransGen.refl
    | drainOp =>
      have hu2 : (shutdownDrain p).tasks[i]? = some u := hu
      by_cases hmem : i ∈ p.queue
      · rw [shutdownDrain_tasks_mem p hI i hmem, ht] at hu2
        have hu3 : some (cancelTCB t) = some u := hu2
        cases hu3
        have hs : t.state = TaskState.queued := (hI.qstate i hmem t ht).1
        have hcs : (cancelTCB t).state = TaskState.cancelled := rfl
        rw [hs, hcs]
        exact Relation.ReflTransGen.single TaskStep.cancelQueued
      · rw [shutdownDrain_tasks_not_mem p i hmem, ht] at hu2
        cases hu2
        exact Relation.ReflTransGen.refl
  · intro p hI op i t ht hterm
    cases op with
    | submitOp b tok =>
      have hlt : i < p.tasks.length := (List.getElem?_eq_some_iff.mp ht).1
      show (submit p b tok).2.tasks[i]? = some t
      rw [submit_tasks_getElem p b tok i hlt]
      exact ht
    | cancelOp tid => exact ht
    | workerOp =>
      have hres : t.resolved := by
        rcases hI.tstate i t ht with ⟨hs, _⟩ | hr
        · rw [hs] at hterm
          simp [TaskState.isTerminal] at hterm
        · exact hr
      exact workerStep_keeps_resolved p hI i t ht hres
    | drainOp =>
      have hmem : i ∉ p.queue := by
        intro hm
        have hs := (hI.qstate i hm t ht).1
        rw [hs] at hterm
        simp [TaskState.isTerminal] at hterm
      show (shutdownDrain p).tasks[i]? = some t
      rw [shutdownDrain_tasks_not_mem p i hmem]
      exact ht
  · intro p op tid hc
    cases op with
    | submitOp b tok => exact submit_tokens_mono p b tok tid hc
    | cancelOp tid2 => exact cancelToken_tokens_mono p tid2 tid hc
    | workerOp =>
      show (((workerStep p).tokens)[tid]?).getD false = true
      rw [workerStep_tokens p]
      exact hc
    | drainOp => exact hc

/-- Witness for C7: a transition out of Queued leaves a non-terminal state,
and a worker step keeps a concrete cancelled token cancelled. -/
theorem terminal_absorbing_witness :
    TaskState.queued.isTerminal = false
    ∧ tokenCancelled
        (applyOp (⟨[], [true], [], false⟩ : Pool Nat Nat) Op.workerOp) 0
        = true :=
  ⟨(@terminal_absorbing Nat Nat).1 TaskState.queued TaskState.running
      TaskStep.start,
   (@terminal_absorbing Nat Nat).2.2.2 (⟨[], [true], [], false⟩ : Pool Nat Nat)
      Op.workerOp 0 rfl⟩

/-- C8: Attaching a continuation commutes with completion: on a channel that
is already terminal, `then` schedules the continuation immediately with the
stored outcome (never missed), and the invocations a continuation receives
are the same whether it was registered before or after the channel became
terminal. -/
theorem then_commutes_with_completion {V E : Type} (w : List Nat) (k : Nat)
    (o : Outcome V E) :
    schedBefore w k o = schedAfter w k o
    ∧ (k, o) ∈ schedAfter w k o
    ∧ (∀ c : Chan V E, c.state = ChanState.done o → thenAttach c k = (c, [(k, o)])) := by
  refine ⟨?_, ?_, ?_⟩
  · simp [schedBefore, schedAfter, thenAttach, completeChan]
  · simp [schedAfter, thenAttach, completeChan]
  · intro c hc
    cases c with
    | mk s ws =>
      cases hc
      rfl

/-- Witness for C8 on a concrete already-completed channel. -/
theorem then_commutes_with_completion_witness :
    thenAttach (⟨ChanState.done (Outcome.value 5), [3]⟩ : Chan Nat Nat) 2
        = (⟨ChanState.done (Outcome.value 5), [3]⟩, [(2, Outcome.value 5)]) :=
  (then_commutes_with_completion [3] 2 (Outcome.value 5)).2.2
    (⟨ChanState.done (Outcome.value 5), [3]⟩ : Chan Nat Nat) rfl

end TaskPool

namespace Conan

/-- C9: `config_options` deletes the `fPIC` option exactly when
`settings.os = "Windows"`, and leaves every other recipe field — including
the `shared` option and the declared defaults `shared=False`, `fPIC=True` —
unchanged. -/
theorem config_options_deletes_fPIC_iff_windows
    (r : TaskPoolConan) (os compiler build_type arch : String) :
    (config_options r).options_fPIC
        = (if r.settings_os = "Windows" then none else r.options_fPIC)
    ∧ (config_options r).options_shared = r.options_shared
    ∧ (config_options r).default_shared = r.default_shared
    ∧ (config_options r).default_fPIC = r.default_fPIC
    ∧ (config_options r).name = r.name
    ∧ (config_options r).version = r.version
    ∧ (config_options r).license = r.license
    ∧ (config_options r).author = r.author
    ∧ (config_options r).url = r.url
    ∧ (config_options r).description = r.description
    ∧ (config_options r).topics = r.topics
    ∧ (config_options r).requires = r.requires
    ∧ (config_options r).generators = r.generators
    ∧ (config_options r).settings_os = r.settings_os
    ∧ (config_options r).settings_compiler = r.settings_compiler
    ∧ (config_options r).settings_build_type = r.settings_build_type
    ∧ (config_options r).settings_arch = r.settings_arch
    ∧ (config_options r).exports_sources = r.exports_sources
    ∧ (config_options r).cpp_info_libs = r.cpp_info_libs
    ∧ ((config_options (mkRecipe os compiler build_type arch)).options_fPIC
          = none ↔ os = "Windows")
    ∧ (mkRecipe os compiler build_type arch).default_shared = false
    ∧ (mkRecipe os compiler build_type arch).default_fPIC = true := by
  unfold config_options mkRecipe
  by_cases hw : r.settings_os = "Windows" <;>
    by_cases hos : os = "Windows" <;>
      simp [hw, hos]

/-- C10: `package_info` always sets `cpp_info.libs` to exactly
`["task_pool"]`, independent of the settings/options configuration, and this
matches the package name declared by the recipe. -/
theorem package_info_libs (r : TaskPoolConan) (os compiler build_type arch : String) :
    (package_info r).cpp_info_libs = ["task_pool"]
    ∧ (package_info r).cpp_info_libs = [(mkRecipe os compiler build_type arch).name] :=
  ⟨rfl, rfl⟩

end Conan
